import Mathlib

/-!
Verification of the agenda state-and-scheduling engine of `src/App.js`
(component `EventFinderEnhanced`).

The JavaScript core is shallowly embedded as executable Lean definitions:

* `parseDate` embeds the helper of the same name (App.js lines 61-68);
  a JS `Date`-or-`null` result is modelled as `Option (Option Int)`:
  `none` is the JS `null` return, `some none` is an Invalid Date
  (`getTime()` is `NaN`), `some (some t)` is a valid date whose
  `getTime()` is `t` milliseconds since the Unix epoch.
* The agenda state (`savedEvents`, `historyEvents`) and its mutations
  `saveEvent`, `updateSavedEvent`, `removeEvent`, `markAsAttended`,
  `importAgenda` embed the handlers of the same names.
* `scheduleReminders` embeds the reminder-scheduling `useEffect`
  (lines 221-240): the effect cancels all previous timers and recomputes
  the timer list from the current `savedEvents`, so after any operation
  sequence the armed timers are exactly `scheduleReminders saved now`.
* `groupEventsByDate` and `calendarDates` embed the calendar tab's
  grouping and key sort (lines 288-296 and 650-656).

JS numbers are modelled as `Int` milliseconds (the values reaching the
date arithmetic are integral); `NaN` only arises from Invalid Dates and
is tracked through the `Option` layer at the point it is produced.
-/

namespace EventFinder

/-! ### String utilities (JS `String.prototype.split` and the range regex) -/

/-- Embeds JS `str.split(sep)` for a single-character separator, on the
character list of the string: `"".split(sep)` is `[""]`, separators at the
ends produce empty fragments, exactly as in JS. -/
def splitOnChar (sep : Char) : List Char → List (List Char)
  | [] => [[]]
  | c :: cs =>
    if c = sep then [] :: splitOnChar sep cs
    else
      match splitOnChar sep cs with
      | [] => [[c]]
      | r :: rs => (c :: r) :: rs

/-- Embeds `str.split(/\s*-\s*/)[0]`: the fragment before the first
hyphen, with the whitespace run immediately preceding that hyphen
stripped (the leftmost regex match starts at the beginning of that run);
if the string has no hyphen the single fragment is the whole string. -/
def firstRangePart (l : List Char) : List Char :=
  if l.any (· = '-') then
    ((l.takeWhile (· ≠ '-')).reverse.dropWhile Char.isWhitespace).reverse
  else l

/-! ### The JS `Date` constructor on `${year}-${month}-${day}` -/

def isLeapYear (y : Nat) : Bool :=
  (y % 4 = 0 && y % 100 ≠ 0) || y % 400 = 0

def daysInMonth (y m : Nat) : Nat :=
  if m = 2 then (if isLeapYear y then 29 else 28)
  else if m = 4 || m = 6 || m = 9 || m = 11 then 30
  else 31

/-- Days from the Unix epoch (1970-01-01) to the civil date y-m-d
(standard days-from-civil algorithm, valid for the four-digit years the
ISO date grammar admits). -/
def daysFromCivil (y m d : Nat) : Int :=
  let yAdj := if m ≤ 2 then y - 1 else y
  let era := yAdj / 400
  let yoe := yAdj % 400
  let mp := (m + 9) % 12
  let doy := (153 * mp + 2) / 5 + (d - 1)
  let doe := yoe * 365 + yoe / 4 - yoe / 100 + doy
  (era * 146097 + doe : Int) - 719468

def natOfDigits (l : List Char) : Nat :=
  l.foldl (fun n c => 10 * n + (c.toNat - 48)) 0

/-- The component shapes and ranges under which the string
`${year}-${month}-${day}` conforms to the ECMAScript Date Time String
Format `YYYY-MM-DD` and denotes a real calendar date; arguments are in
day, month, year order, matching the `DD/MM/YYYY` source grammar. -/
def validDMY (d m y : List Char) : Bool :=
  d.length = 2 && d.all Char.isDigit &&
  m.length = 2 && m.all Char.isDigit &&
  y.length = 4 && y.all Char.isDigit &&
  1 ≤ natOfDigits m && natOfDigits m ≤ 12 &&
  1 ≤ natOfDigits d && natOfDigits d ≤ daysInMonth (natOfDigits y) (natOfDigits m)

/-- `getTime()` of the date `d/m/y`: UTC midnight, in milliseconds. -/
def epochMsOf (d m y : List Char) : Int :=
  daysFromCivil (natOfDigits y) (natOfDigits m) (natOfDigits d) * 86400000

/-- Embeds `new Date(`${year}-${month}-${day}`)` as used by `parseDate`:
a conforming `YYYY-MM-DD` string yields the date's time value (UTC
midnight per the ECMAScript date-only form); a non-conforming string
yields an Invalid Date, modelled as `none`. -/
def mkJSDate (year month day : List Char) : Option Int :=
  if validDMY day month year then some (epochMsOf day month year) else none

/-- Embeds `parseDate` (App.js lines 61-68) on the character list of the
input. `none` models the JS `null` returns (`!dateStr`, or a falsy
day/month/year component after splitting on `/`); `some v` models the
`new Date(...)` return, `v = none` being an Invalid Date. -/
def parseDateChars (l : List Char) : Option (Option Int) :=
  if l = [] then none
  else
    let part := firstRangePart l
    let comps := splitOnChar '/' part
    let day := comps.getD 0 []
    let month := comps.getD 1 []
    let year := comps.getD 2 []
    if day = [] || month = [] || year = [] then none
    else some (mkJSDate year month day)

/-- `parseDate` on a `String` (`!dateStr` is true exactly for the empty
string, i.e. the empty character list). -/
def parseDate (dateStr : String) : Option (Option Int) :=
  parseDateChars dateStr.toList

/-! ### Data model

A discovered event as produced by `searchEvents` (the object the search
tab renders and `saveEvent` receives). All fields are strings. -/

structure CandidateEvent where
  titulo : String
  fecha : String
  ubicacion : String
  tipo : String
  descripcion : String
  fuente : String
deriving Repr, DecidableEq

/-- A saved (or history) event: a candidate spread together with the
annotation fields `saveEvent` adds. `reminder` is the lead time in
milliseconds or JS `null` (`none`); history entries are the same record
shape with `estado` frozen to `"asistido"` by `markAsAttended`. -/
structure SavedEvent where
  titulo : String
  fecha : String
  ubicacion : String
  tipo : String
  descripcion : String
  fuente : String
  notas : String
  estado : String
  contactos : List String
  reminder : Option Int
  category : String
deriving Repr, DecidableEq

/-- The two agenda collections held in React state. -/
structure AgendaState where
  savedEvents : List SavedEvent
  historyEvents : List SavedEvent
deriving Repr, DecidableEq

def emptyAgenda : AgendaState := ⟨[], []⟩

def savedTitles (s : AgendaState) : List String :=
  s.savedEvents.map (·.titulo)

def historyTitles (s : AgendaState) : List String :=
  s.historyEvents.map (·.titulo)

/-! ### Agenda Store operations -/

/-- The SavedEvent `saveEvent` constructs:
`{...event, notas: '', estado: '', contactos: [], reminder: null,
category: event.tipo || ''}` (the `||` yields `''` exactly when
`event.tipo` is the empty string, fields being strings here). -/
def blankSavedOf (event : CandidateEvent) : SavedEvent :=
  { titulo := event.titulo, fecha := event.fecha, ubicacion := event.ubicacion,
    tipo := event.tipo, descripcion := event.descripcion, fuente := event.fuente,
    notas := "", estado := "", contactos := [], reminder := none,
    category := if event.tipo = "" then "" else event.tipo }

/-- Embeds `saveEvent` (lines 131-145): append a blank-annotated copy of
the candidate unless `savedEvents.find` already yields an event with the
same `titulo`; the history collection is not consulted. -/
def saveEvent (event : CandidateEvent) (s : AgendaState) : AgendaState :=
  match s.savedEvents.find? (fun e => e.titulo = event.titulo) with
  | some _ => s
  | none => { s with savedEvents := s.savedEvents ++ [blankSavedOf event] }

/-- The dynamic `[field]: value` of `updateSavedEvent`, restricted to the
five annotation fields its call sites pass (notas, estado, contactos,
reminder, category). -/
inductive FieldUpdate where
  | notas (v : String)
  | estado (v : String)
  | contactos (v : List String)
  | reminder (v : Option Int)
  | category (v : String)
deriving Repr, DecidableEq

def applyField (f : FieldUpdate) (e : SavedEvent) : SavedEvent :=
  match f with
  | .notas v => { e with notas := v }
  | .estado v => { e with estado := v }
  | .contactos v => { e with contactos := v }
  | .reminder v => { e with reminder := v }
  | .category v => { e with category := v }

/-- Embeds `updateSavedEvent` (lines 152-156): `{...e, [field]: value}`
on every saved event whose `titulo` matches, identity elsewhere. -/
def updateSavedEvent (titulo : String) (f : FieldUpdate) (s : AgendaState) : AgendaState :=
  { s with savedEvents :=
      s.savedEvents.map (fun e => if e.titulo = titulo then applyField f e else e) }

/-- Embeds `removeEvent` (lines 161-163). -/
def removeEvent (titulo : String) (s : AgendaState) : AgendaState :=
  { s with savedEvents := s.savedEvents.filter (fun e => ¬ e.titulo = titulo) }

/-- Embeds `markAsAttended` (lines 168-175): `find` the first saved
event with the title; if found, drop every saved event with that title
and append that first match, with `estado` set to `"asistido"`, to the
history collection; otherwise do nothing. -/
def markAsAttended (titulo : String) (s : AgendaState) : AgendaState :=
  match s.savedEvents.find? (fun e => e.titulo = titulo) with
  | none => s
  | some event =>
    { savedEvents := s.savedEvents.filter (fun e => ¬ e.titulo = titulo),
      historyEvents := s.historyEvents ++ [{ event with estado := "asistido" }] }

/-! ### Import / export merge -/

/-- The parsed JSON structure `importAgenda` reads; `none` fields model
top-level keys that are absent (falsy), which the source's
`if (json.savedEvents)` / `if (json.historyEvents)` guards skip. -/
structure Snapshot where
  savedEvents : Option (List SavedEvent)
  historyEvents : Option (List SavedEvent)
deriving Repr, DecidableEq

/-- The merge inside `importAgenda`'s `try` block (lines 270-276): each
present array is appended, entry by entry, after the existing entries. -/
def mergeSnapshot (json : Snapshot) (s : AgendaState) : AgendaState :=
  let s1 :=
    match json.savedEvents with
    | some l => { s with savedEvents := s.savedEvents ++ l }
    | none => s
  match json.historyEvents with
  | some l => { s1 with historyEvents := s1.historyEvents ++ l }
  | none => s1

/-- Embeds the `reader.onload` handler of `importAgenda` (lines 264-282).
`parsed` is the outcome of `JSON.parse(evt.target.result)`: `none` when
it throws (malformed text), in which case the `catch` arm shows one
`alert` and touches no state. The second component counts the `alert`
calls surfaced to the user. -/
def importAgenda (parsed : Option Snapshot) (s : AgendaState) : AgendaState × Nat :=
  match parsed with
  | some json => (mergeSnapshot json s, 0)
  | none => (s, 1)

/-- The public mutations of the agenda store, as exercised by the UI. -/
inductive AgendaOp where
  | save (event : CandidateEvent)
  | update (titulo : String) (f : FieldUpdate)
  | remove (titulo : String)
  | promote (titulo : String)
  | merge (json : Snapshot)
deriving Repr, DecidableEq

def applyOp (o : AgendaOp) (s : AgendaState) : AgendaState :=
  match o with
  | .save event => saveEvent event s
  | .update titulo f => updateSavedEvent titulo f s
  | .remove titulo => removeEvent titulo s
  | .promote titulo => markAsAttended titulo s
  | .merge json => mergeSnapshot json s

def runOps (ops : List AgendaOp) (s : AgendaState) : AgendaState :=
  ops.foldl (fun s o => applyOp o s) s

/-! ### Reminder scheduler

The `useEffect` on `[savedEvents]` (lines 221-240) clears every timer it
armed before re-running, then walks the current `savedEvents` arming one
`setTimeout` per qualifying event. Hence after any operation sequence
the armed timers are exactly the list computed here from the resulting
`savedEvents` and the ambient `Date.now()` value `now`. -/

/-- One armed `setTimeout`: the alert closure captures `titulo` and
`fecha`, and the timeout fires at `remindAt` (`delay` past `now`). -/
structure ReminderTimer where
  titulo : String
  fecha : String
  fireAt : Int
deriving Repr, DecidableEq

/-- The loop body for one event. `!event.reminder` skips JS-falsy
reminders: `null` and `0`. `!eventDate` skips only the `null` parse
result — an Invalid Date object is truthy, but then
`eventDate.getTime()` is `NaN`, `delay` is `NaN`, and `NaN > 0` is
false, so no timer is armed on that branch either. -/
def timerFor (now : Int) (event : SavedEvent) : Option ReminderTimer :=
  match event.reminder with
  | none => none
  | some r =>
    if r = 0 then none
    else
      match parseDate event.fecha with
      | none => none
      | some none => none
      | some (some t) =>
        let remindAt := t - r
        let delay := remindAt - now
        if delay > 0 then some ⟨event.titulo, event.fecha, remindAt⟩ else none

/-- Embeds the whole effect body: the timers armed for `savedEvents` at
time `now`, in traversal order. -/
def scheduleReminders (savedEvents : List SavedEvent) (now : Int) : List ReminderTimer :=
  savedEvents.filterMap (timerFor now)

/-! ### Calendar grouping and key ordering -/

/-- The grouping key of an event: `e.fecha.split(/\s*-\s*/)[0]`. -/
def dateKeyOf (e : SavedEvent) : String :=
  ⟨firstRangePart e.fecha.toList⟩

/-- Embeds `groupEventsByDate` (lines 288-296) as an insertion-ordered
association list: the JS object keeps string keys in insertion order.
(Keys that are canonical numeric strings would be reordered first by
`Object.keys`; see `isArrayIndexKey` — the ordering theorems are scoped
to keys where insertion order is the real enumeration order.) -/
def groupEventsByDate (eventList : List SavedEvent) : List (String × List SavedEvent) :=
  eventList.foldl
    (fun grouped e =>
      let dateKey := dateKeyOf e
      if grouped.any (fun p => p.fst = dateKey) then
        grouped.map (fun p => if p.fst = dateKey then (p.fst, p.snd ++ [e]) else p)
      else grouped ++ [(dateKey, [e])])
    []

/-- The group keys in the order `Object.keys(grouped)` enumerates them
(insertion order, for non-array-index keys). -/
def calendarKeys (eventList : List SavedEvent) : List String :=
  (groupEventsByDate eventList).map Prod.fst

/-- A string that ECMAScript treats as an array index, which
`Object.keys` enumerates before all other string keys, in numeric order:
a canonical base-10 numeral below 2^32 - 1. Date keys such as
`DD/MM/YYYY` contain `/` and are never of this shape. -/
def isArrayIndexKey (s : String) : Bool :=
  let l := s.toList
  !l.isEmpty && l.all Char.isDigit && (l = ['0'] || l.headD ' ' ≠ '0') &&
    natOfDigits l < 4294967295

/-- The numeric value the calendar comparator gives a key:
`(parseDate(a) || 0)` — a JS `null` parse is replaced by `0` (the epoch)
before the subtraction. An Invalid Date would contribute `NaN`; the
ordering theorems are scoped to keys that do not parse to Invalid
Dates, so that branch is out of model (it is mapped to `0` here). -/
def sortVal (k : String) : Int :=
  match parseDate k with
  | none => 0
  | some none => 0
  | some (some t) => t

/-- The total preorder the comparator `(da || 0) - (db || 0)` induces. -/
def calendarLe (a b : String) : Prop :=
  sortVal a ≤ sortVal b

instance : DecidableRel calendarLe := fun a b => Int.decLe (sortVal a) (sortVal b)

instance : IsTotal String calendarLe := ⟨fun a b => Int.le_total (sortVal a) (sortVal b)⟩

instance : IsTrans String calendarLe := ⟨fun _ _ _ => Int.le_trans⟩

/-- Embeds the calendar tab's `Object.keys(grouped).sort(comparator)`
(lines 650-656). `Array.prototype.sort` is stable and, for the
consistent comparator the numeric key induces, produces the unique
stable order sorted by that key — which insertion sort computes. -/
def calendarDates (eventList : List SavedEvent) : List String :=
  (calendarKeys eventList).insertionSort calendarLe

/-! ### Concrete sample data used by witnesses and counterexamples -/

def candA : CandidateEvent :=
  { titulo := "A", fecha := "12/07/2025", ubicacion := "Grace Bay", tipo := "social",
    descripcion := "d", fuente := "f" }

def savedA : SavedEvent := blankSavedOf candA

def savedB : SavedEvent :=
  { savedA with titulo := "B", fecha := "sin fecha" }

/-- A second saved event with the same title as `savedA` but different
annotations, as an append-only import can produce. -/
def savedDupA : SavedEvent :=
  { savedA with notas := "otra copia" }

def attendedB : SavedEvent :=
  { savedB with estado := "asistido" }

def stateA : AgendaState := ⟨[savedA], []⟩

/-! ### Helper lemmas on find?, filter and titles -/

lemma find?_eq_filter_head? {α : Type} (p : α → Bool) (l : List α) :
    l.find? p = (l.filter p).head? := by
  induction l with
  | nil => rfl
  | cons a l ih =>
    by_cases h : p a = true
    · rw [List.find?_cons_of_pos _ h, List.filter_cons_of_pos h, List.head?_cons]
    · rw [List.find?_cons_of_neg _ h, List.filter_cons_of_neg h, ih]

lemma find?_titles_isSome {s : AgendaState} {t : String} (h : t ∈ savedTitles s) :
    ∃ e, s.savedEvents.find? (fun x => x.titulo = t) = some e := by
  obtain ⟨x, hx, hxt⟩ := List.mem_map.mp h
  have : (s.savedEvents.find? (fun x => x.titulo = t)).isSome :=
    List.find?_isSome.mpr ⟨x, hx, by simp [hxt]⟩
  exact Option.isSome_iff_exists.mp this

lemma find?_titles_eq_none {s : AgendaState} {t : String} (h : t ∉ savedTitles s) :
    s.savedEvents.find? (fun x => x.titulo = t) = none := by
  rw [List.find?_eq_none]
  intro x hx
  simp only [decide_eq_true_eq]
  exact fun hxt => h (List.mem_map.mpr ⟨x, hx, hxt⟩)

lemma find?_filter_not_titulo (l : List SavedEvent) (t : String) :
    (l.filter (fun x => ¬ x.titulo = t)).find? (fun x => x.titulo = t) = none := by
  rw [List.find?_eq_none]
  intro x hx
  have := (List.mem_filter.mp hx).2
  simpa using this

lemma filter_titulo_filter_not (l : List SavedEvent) (t : String) :
    (l.filter (fun x => ¬ x.titulo = t)).filter (fun x => x.titulo = t) = [] := by
  induction l with
  | nil => rfl
  | cons a l ih =>
    by_cases h : a.titulo = t <;> simp [List.filter_cons, h, ih]

lemma markAsAttended_found {s : AgendaState} {t : String} {e : SavedEvent}
    (hfind : s.savedEvents.find? (fun x => x.titulo = t) = some e) :
    markAsAttended t s =
      { savedEvents := s.savedEvents.filter (fun x => ¬ x.titulo = t),
        historyEvents := s.historyEvents ++ [{ e with estado := "asistido" }] } := by
  simp [markAsAttended, hfind]

/-! ### Claims C5-C10 -/

/-- C9: for a malformed (unparseable) snapshot input, import surfaces
exactly one user-facing error message (`alert` count 1), does not raise
past the operation (the handler is total), and leaves the saved and
history collections entirely unchanged — no partial merge. -/
theorem c9_import_malformed (s : AgendaState) : importAgenda none s = (s, 1) := rfl

/-- C8: merging a well-formed snapshot with `k` saved entries and `m`
history entries appends them entry by entry with no deduplication: the
saved collection grows by exactly `k`, the history collection by exactly
`m`, and the existing entries stay an unmodified left segment. -/
theorem c8_merge_appends (s : AgendaState) (snap : Snapshot) (ls lh : List SavedEvent)
    (h1 : snap.savedEvents = some ls) (h2 : snap.historyEvents = some lh) :
    mergeSnapshot snap s = ⟨s.savedEvents ++ ls, s.historyEvents ++ lh⟩ ∧
    (mergeSnapshot snap s).savedEvents.length = s.savedEvents.length + ls.length ∧
    (mergeSnapshot snap s).historyEvents.length = s.historyEvents.length + lh.length ∧
    (mergeSnapshot snap s).savedEvents.take s.savedEvents.length = s.savedEvents ∧
    (mergeSnapshot snap s).historyEvents.take s.historyEvents.length = s.historyEvents := by
  have hm : mergeSnapshot snap s = ⟨s.savedEvents ++ ls, s.historyEvents ++ lh⟩ := by
    simp [mergeSnapshot, h1, h2]
  refine ⟨hm, ?_, ?_, ?_, ?_⟩ <;> simp [hm, List.take_left]

theorem c8_merge_appends_witness :
    (Snapshot.mk (some [savedB]) (some [savedDupA])).savedEvents = some [savedB] ∧
    (Snapshot.mk (some [savedB]) (some [savedDupA])).historyEvents = some [savedDupA] ∧
    (mergeSnapshot ⟨some [savedB], some [savedDupA]⟩ stateA =
        ⟨stateA.savedEvents ++ [savedB], stateA.historyEvents ++ [savedDupA]⟩ ∧
      (mergeSnapshot ⟨some [savedB], some [savedDupA]⟩ stateA).savedEvents.length =
        stateA.savedEvents.length + [savedB].length ∧
      (mergeSnapshot ⟨some [savedB], some [savedDupA]⟩ stateA).historyEvents.length =
        stateA.historyEvents.length + [savedDupA].length ∧
      (mergeSnapshot ⟨some [savedB], some [savedDupA]⟩ stateA).savedEvents.take
          stateA.savedEvents.length = stateA.savedEvents ∧
      (mergeSnapshot ⟨some [savedB], some [savedDupA]⟩ stateA).historyEvents.take
          stateA.historyEvents.length = stateA.historyEvents) :=
  ⟨rfl, rfl, c8_merge_appends stateA ⟨some [savedB], some [savedDupA]⟩ [savedB] [savedDupA] rfl rfl⟩

lemma mem_savedTitles_saveEvent (e : CandidateEvent) (s : AgendaState) :
    e.titulo ∈ savedTitles (saveEvent e s) := by
  unfold saveEvent
  cases hf : s.savedEvents.find? (fun x => x.titulo = e.titulo) with
  | none =>
    simp [savedTitles, blankSavedOf]
  | some x =>
    have hx := List.mem_of_find?_eq_some hf
    have hxt : x.titulo = e.titulo := by simpa using List.find?_some hf
    exact List.mem_map.mpr ⟨x, hx, hxt⟩

lemma saveEvent_of_mem (ev : CandidateEvent) (s : AgendaState)
    (h : ev.titulo ∈ savedTitles s) : saveEvent ev s = s := by
  obtain ⟨e, hfind⟩ := find?_titles_isSome h
  simp [saveEvent, hfind]

/-- C6: `save` is idempotent with respect to title — if an event with
the candidate's title is already saved, a further save is a no-op, so
saving twice with the same title yields exactly one saved event with
that title when it was fresh. -/
theorem c6_save_idempotent (s : AgendaState) (e e' : CandidateEvent)
    (h : e'.titulo = e.titulo) :
    saveEvent e' (saveEvent e s) = saveEvent e s ∧
    (e.titulo ∉ savedTitles s →
      ((saveEvent e s).savedEvents.filter (fun x => x.titulo = e.titulo)).length = 1) := by
  constructor
  · exact saveEvent_of_mem e' (saveEvent e s) (h ▸ mem_savedTitles_saveEvent e s)
  · intro hfresh
    have hfind := find?_titles_eq_none hfresh
    have hsave : saveEvent e s = { s with savedEvents := s.savedEvents ++ [blankSavedOf e] } := by
      simp [saveEvent, hfind]
    rw [hsave]
    have hnil : s.savedEvents.filter (fun x => x.titulo = e.titulo) = [] := by
      rw [List.filter_eq_nil_iff]
      intro x hx
      simp only [decide_eq_true_eq]
      exact fun hxt => hfresh (List.mem_map.mpr ⟨x, hx, hxt⟩)
    simp [List.filter_append, hnil, blankSavedOf]

theorem c6_save_idempotent_witness :
    candA.titulo = candA.titulo ∧ candA.titulo ∉ savedTitles emptyAgenda ∧
    saveEvent candA (saveEvent candA emptyAgenda) = saveEvent candA emptyAgenda ∧
    ((saveEvent candA emptyAgenda).savedEvents.filter
        (fun x => x.titulo = candA.titulo)).length = 1 :=
  ⟨rfl, by decide, (c6_save_idempotent emptyAgenda candA candA rfl).1,
    (c6_save_idempotent emptyAgenda candA candA rfl).2 (by decide)⟩

/-- C7: `save` checks only the saved collection for duplicates, never
the history collection: a title present in history but absent from the
saved collection is saved as a fresh, blank-annotated event (empty
notes, unset status, no contacts, null reminder, category from the
candidate's `tipo`, or empty). -/
theorem c7_save_ignores_history (s : AgendaState) (ev : CandidateEvent)
    (_hh : ev.titulo ∈ historyTitles s) (hs : ev.titulo ∉ savedTitles s) :
    saveEvent ev s = { s with savedEvents := s.savedEvents ++ [blankSavedOf ev] } ∧
    (blankSavedOf ev).notas = "" ∧ (blankSavedOf ev).estado = "" ∧
    (blankSavedOf ev).contactos = [] ∧ (blankSavedOf ev).reminder = none ∧
    (blankSavedOf ev).category = (if ev.tipo = "" then "" else ev.tipo) := by
  refine ⟨?_, rfl, rfl, rfl, rfl, rfl⟩
  simp [saveEvent, find?_titles_eq_none hs]

theorem c7_save_ignores_history_witness :
    candA.titulo ∈ historyTitles ⟨[], [{ savedA with estado := "asistido" }]⟩ ∧
    candA.titulo ∉ savedTitles ⟨[], [{ savedA with estado := "asistido" }]⟩ ∧
    (saveEvent candA ⟨[], [{ savedA with estado := "asistido" }]⟩ =
        { AgendaState.mk [] [{ savedA with estado := "asistido" }] with
            savedEvents := [] ++ [blankSavedOf candA] } ∧
      (blankSavedOf candA).notas = "" ∧ (blankSavedOf candA).estado = "" ∧
      (blankSavedOf candA).contactos = [] ∧ (blankSavedOf candA).reminder = none ∧
      (blankSavedOf candA).category = (if candA.tipo = "" then "" else candA.tipo)) :=
  ⟨by decide, by decide,
    c7_save_ignores_history ⟨[], [{ savedA with estado := "asistido" }]⟩ candA
      (by decide) (by decide)⟩

/-- C5: for a title present in the saved collection, `promoteToHistory`
(`markAsAttended`) removes that title from the saved collection and
appends exactly one history entry, the found event with
`estado = "asistido"`; a second call on the now-removed title is a
no-op that changes nothing and duplicates nothing. -/
theorem c5_promote_then_noop (s : AgendaState) (t : String) (h : t ∈ savedTitles s) :
    ∃ e, s.savedEvents.find? (fun x => x.titulo = t) = some e ∧ e.titulo = t ∧
      markAsAttended t s =
        { savedEvents := s.savedEvents.filter (fun x => ¬ x.titulo = t),
          historyEvents := s.historyEvents ++ [{ e with estado := "asistido" }] } ∧
      t ∉ savedTitles (markAsAttended t s) ∧
      markAsAttended t (markAsAttended t s) = markAsAttended t s := by
  obtain ⟨e, hfind⟩ := find?_titles_isSome h
  have het : e.titulo = t := by simpa using List.find?_some hfind
  have hm := markAsAttended_found hfind
  refine ⟨e, hfind, het, hm, ?_, ?_⟩
  · rw [hm]
    intro hmem
    obtain ⟨x, hx, hxt⟩ := List.mem_map.mp hmem
    have := (List.mem_filter.mp hx).2
    simp only [decide_eq_true_eq] at this
    exact this hxt
  · rw [hm]
    have hg := find?_filter_not_titulo s.savedEvents t
    simp only [markAsAttended, hg]

theorem c5_promote_then_noop_witness :
    "A" ∈ savedTitles stateA ∧
    (∃ e, stateA.savedEvents.find? (fun x => x.titulo = "A") = some e ∧ e.titulo = "A" ∧
      markAsAttended "A" stateA =
        { savedEvents := stateA.savedEvents.filter (fun x => ¬ x.titulo = "A"),
          historyEvents := stateA.historyEvents ++ [{ e with estado := "asistido" }] } ∧
      "A" ∉ savedTitles (markAsAttended "A" stateA) ∧
      markAsAttended "A" (markAsAttended "A" stateA) = markAsAttended "A" stateA) :=
  ⟨by decide, c5_promote_then_noop stateA "A" (by decide)⟩

/-- C10: when two or more saved events share a title, promoting that
title removes every saved event carrying it but appends exactly one
history entry, built from the first matching saved event; the other
duplicates' annotations are discarded. -/
theorem c10_promote_duplicates (s : AgendaState) (t : String)
    (h : 2 ≤ (s.savedEvents.filter (fun x => x.titulo = t)).length) :
    ∃ e, (s.savedEvents.filter (fun x => x.titulo = t)).head? = some e ∧
      markAsAttended t s =
        { savedEvents := s.savedEvents.filter (fun x => ¬ x.titulo = t),
          historyEvents := s.historyEvents ++ [{ e with estado := "asistido" }] } ∧
      (markAsAttended t s).savedEvents.filter (fun x => x.titulo = t) = [] ∧
      (markAsAttended t s).historyEvents.length = s.historyEvents.length + 1 := by
  obtain ⟨e, he⟩ : ∃ e, (s.savedEvents.filter (fun x => x.titulo = t)).head? = some e := by
    cases hf : s.savedEvents.filter (fun x => x.titulo = t) with
    | nil => rw [hf] at h; simp at h
    | cons a l => exact ⟨a, rfl⟩
  have hfind : s.savedEvents.find? (fun x => x.titulo = t) = some e := by
    rw [find?_eq_filter_head?]; exact he
  have hm := markAsAttended_found hfind
  refine ⟨e, he, hm, ?_, ?_⟩
  · rw [hm]; exact filter_titulo_filter_not s.savedEvents t
  · rw [hm]; simp

theorem c10_promote_duplicates_witness :
    2 ≤ ((AgendaState.mk [savedA, savedDupA] []).savedEvents.filter
        (fun x => x.titulo = "A")).length ∧
    (∃ e, ((AgendaState.mk [savedA, savedDupA] []).savedEvents.filter
          (fun x => x.titulo = "A")).head? = some e ∧
      markAsAttended "A" ⟨[savedA, savedDupA], []⟩ =
        { savedEvents := (AgendaState.mk [savedA, savedDupA] []).savedEvents.filter
            (fun x => ¬ x.titulo = "A"),
          historyEvents := (AgendaState.mk [savedA, savedDupA] []).historyEvents ++
            [{ e with estado := "asistido" }] } ∧
      (markAsAttended "A" ⟨[savedA, savedDupA], []⟩).savedEvents.filter
        (fun x => x.titulo = "A") = [] ∧
      (markAsAttended "A" ⟨[savedA, savedDupA], []⟩).historyEvents.length =
        (AgendaState.mk [savedA, savedDupA] []).historyEvents.length + 1) :=
  ⟨by decide, c10_promote_duplicates ⟨[savedA, savedDupA], []⟩ "A" (by decide)⟩

/-! ### Claim C4: title disjointness of saved and history -/

/-- No title occurs in both the saved and the history collection. -/
def titleDisjoint (s : AgendaState) : Bool :=
  decide (∀ t ∈ savedTitles s, t ∉ historyTitles s)

lemma titleDisjoint_iff (s : AgendaState) :
    titleDisjoint s = true ↔ ∀ t ∈ savedTitles s, t ∉ historyTitles s := by
  simp [titleDisjoint]

/-- The operations that never insert into the saved collection:
update, remove and promote. `save` and `merge` can (re-)introduce a
title that is already in history. -/
def isNonInsertingOp : AgendaOp → Bool
  | .update _ _ => true
  | .remove _ => true
  | .promote _ => true
  | _ => false

lemma applyField_titulo (f : FieldUpdate) (e : SavedEvent) :
    (applyField f e).titulo = e.titulo := by
  cases f <;> rfl

lemma savedTitles_update (titulo : String) (f : FieldUpdate) (s : AgendaState) :
    savedTitles (updateSavedEvent titulo f s) = savedTitles s := by
  simp only [savedTitles, updateSavedEvent, List.map_map]
  apply List.map_congr_left
  intro e _
  by_cases h : e.titulo = titulo <;> simp [h, applyField_titulo]

/-- C4 (amended): `update`, `remove` and `promoteToHistory` preserve the
invariant that a title is in at most one of the saved and history
collections; only `save` (and `mergeSnapshot`) can break it, by
re-inserting a title that already sits in history. -/
theorem c4_nonInserting_preserves_disjoint (s : AgendaState) (o : AgendaOp)
    (ho : isNonInsertingOp o = true) (hd : titleDisjoint s = true) :
    titleDisjoint (applyOp o s) = true := by
  rw [titleDisjoint_iff] at hd ⊢
  cases o with
  | save e => exact absurd ho (by simp [isNonInsertingOp])
  | merge json => exact absurd ho (by simp [isNonInsertingOp])
  | update titulo f =>
    intro t ht
    simp only [applyOp] at ht ⊢
    rw [savedTitles_update] at ht
    simpa [updateSavedEvent, historyTitles] using hd t ht
  | remove titulo =>
    intro t ht
    simp only [applyOp] at ht ⊢
    obtain ⟨x, hx, hxt⟩ := List.mem_map.mp ht
    have hx' := (List.mem_filter.mp hx).1
    simpa [applyOp, removeEvent, historyTitles] using
      hd t (List.mem_map.mpr ⟨x, hx', hxt⟩)
  | promote titulo =>
    show ∀ t ∈ savedTitles (markAsAttended titulo s), t ∉ historyTitles (markAsAttended titulo s)
    cases hf : s.savedEvents.find? (fun x => x.titulo = titulo) with
    | none =>
      simp only [markAsAttended, hf]
      exact hd
    | some e =>
      have het : e.titulo = titulo := by simpa using List.find?_some hf
      rw [markAsAttended_found hf]
      intro t ht
      obtain ⟨x, hx, hxt⟩ := List.mem_map.mp ht
      obtain ⟨hxmem, hxne⟩ := List.mem_filter.mp hx
      simp only [decide_eq_true_eq] at hxne
      have htne : ¬ t = titulo := by rw [← hxt]; exact hxne
      have hts : t ∈ savedTitles s := List.mem_map.mpr ⟨x, hxmem, hxt⟩
      intro hth
      simp only [historyTitles, List.map_append, List.mem_append] at hth
      rcases hth with hth | hth
      · exact hd t hts hth
      · simp at hth
        exact htne (hth.trans het)

theorem c4_nonInserting_preserves_disjoint_witness :
    isNonInsertingOp (AgendaOp.promote "A") = true ∧
    titleDisjoint ⟨[savedA], [attendedB]⟩ = true ∧
    titleDisjoint (applyOp (AgendaOp.promote "A") ⟨[savedA], [attendedB]⟩) = true :=
  ⟨by decide, by decide,
    c4_nonInserting_preserves_disjoint ⟨[savedA], [attendedB]⟩ (AgendaOp.promote "A")
      (by decide) (by decide)⟩

/-- C4 (counterexample): the claimed invariant fails for `save` — after
saving a candidate, promoting its title to history, and saving the same
candidate again (all public operations from the empty state), the title
"A" is simultaneously in the saved and the history collection. -/
theorem c4_counterexample :
    "A" ∈ savedTitles (runOps
        [AgendaOp.save candA, AgendaOp.promote "A", AgendaOp.save candA] emptyAgenda) ∧
    "A" ∈ historyTitles (runOps
        [AgendaOp.save candA, AgendaOp.promote "A", AgendaOp.save candA] emptyAgenda) := by
  decide

/-! ### Claim C1: the armed-timer set -/

/-- The condition claim C1 states for an armed timer, in its own words:
`reminderLeadTime` is not None, the date parses to a valid value, and
the fire-time `eventDate - reminderLeadTime` is strictly in the future.
(An Invalid Date gives a `NaN` fire-time, which is not strictly in the
future under any reading, so only the valid-date branch can hold.) -/
def c1TimerExpected (now : Int) (e : SavedEvent) : Bool :=
  e.reminder.isSome &&
    match parseDate e.fecha with
    | some (some t) => decide (now < t - e.reminder.getD 0)
    | _ => false

/-- The condition under which the effect actually arms a timer: as
`c1TimerExpected`, but additionally the lead time must not be `0`,
because `!event.reminder` is true for the JS-falsy value `0`. -/
def c1TimerArmed (now : Int) (e : SavedEvent) : Bool :=
  match e.reminder with
  | none => false
  | some r =>
    if r = 0 then false
    else
      match parseDate e.fecha with
      | some (some t) => decide (now < t - r)
      | _ => false

/-- The fire-time of an event's timer (meaningful on events whose date
parses to a valid value and whose reminder is set). -/
def fireAtOf (e : SavedEvent) : Int :=
  (match parseDate e.fecha with | some (some t) => t | _ => 0) - e.reminder.getD 0

lemma timerFor_eq_c1 (now : Int) (e : SavedEvent) :
    timerFor now e =
      if c1TimerArmed now e then some ⟨e.titulo, e.fecha, fireAtOf e⟩ else none := by
  unfold timerFor c1TimerArmed fireAtOf
  cases hr : e.reminder with
  | none => rfl
  | some r =>
    by_cases h0 : r = 0
    · simp [h0]
    · cases hp : parseDate e.fecha with
      | none => simp [h0]
      | some v =>
        cases v with
        | none => simp [h0]
        | some t =>
          by_cases hlt : now < t - r
          · simp [h0, hlt, show t - r - now > 0 by omega]
          · simp [h0, hlt, show ¬ t - r - now > 0 by omega]

lemma scheduleReminders_eq_filter (saved : List SavedEvent) (now : Int) :
    scheduleReminders saved now =
      (saved.filter (c1TimerArmed now)).map
        (fun e => { titulo := e.titulo, fecha := e.fecha, fireAt := fireAtOf e }) := by
  induction saved with
  | nil => rfl
  | cons e l ih =>
    simp only [scheduleReminders] at ih ⊢
    rw [List.filterMap_cons, timerFor_eq_c1]
    by_cases h : c1TimerArmed now e = true
    · rw [if_pos h, List.filter_cons_of_pos h, List.map_cons, ih]
    · rw [if_neg h, List.filter_cons_of_neg h, ih]

/-- C1 (amended): after any sequence of public operations, the set of
armed reminder timers is exactly one timer per saved event whose
`reminder` is non-null **and non-zero** (the `!event.reminder` guard
skips the JS-falsy lead time `0`), whose date parses to a valid value,
and whose fire-time `eventDate - reminder` is strictly in the future;
every other saved event has zero timers. -/
theorem c1_armed_timers (ops : List AgendaOp) (now : Int) :
    scheduleReminders (runOps ops emptyAgenda).savedEvents now =
      ((runOps ops emptyAgenda).savedEvents.filter (c1TimerArmed now)).map
        (fun e => { titulo := e.titulo, fecha := e.fecha, fireAt := fireAtOf e }) :=
  scheduleReminders_eq_filter _ _

/-- C1 (counterexample): reachable by `save` then `update` of the
reminder field to the lead time `0` — a non-None lead time with a
parsable date whose fire-time (the event date itself, well after
`now = 0`) is strictly in the future, so the claim requires a timer,
yet the effect arms none, because `!event.reminder` is true for `0`. -/
theorem c1_counterexample :
    (runOps [AgendaOp.save candA,
        AgendaOp.update "A" (FieldUpdate.reminder (some 0))] emptyAgenda).savedEvents.filter
      (c1TimerExpected 0) ≠ [] ∧
    scheduleReminders
      (runOps [AgendaOp.save candA,
          AgendaOp.update "A" (FieldUpdate.reminder (some 0))] emptyAgenda).savedEvents 0 = [] := by
  decide

/-! ### Claim C2: the date grammar -/

lemma digit_ne_hyphen {c : Char} (h : c.isDigit = true) : ¬ c = '-' := by
  intro he; subst he; exact absurd h (by decide)

lemma digit_ne_slash {c : Char} (h : c.isDigit = true) : ¬ c = '/' := by
  intro he; subst he; exact absurd h (by decide)

lemma digit_not_ws {c : Char} (h : c.isDigit = true) : c.isWhitespace = false := by
  cases hw : c.isWhitespace with
  | false => rfl
  | true =>
    have hor : c = ' ' ∨ c = '\t' ∨ c = '\r' ∨ c = '\n' := by
      have := hw; simp [Char.isWhitespace] at this; tauto
    rcases hor with he | he | he | he <;> (subst he; exact absurd h (by decide))

lemma ws_ne_hyphen {c : Char} (h : c.isWhitespace = true) : ¬ c = '-' := by
  intro he; subst he; exact absurd h (by decide)

lemma splitOnChar_sepFree {sep : Char} {l : List Char} (h : ∀ c ∈ l, ¬ c = sep) :
    splitOnChar sep l = [l] := by
  induction l with
  | nil => rfl
  | cons c cs ih =>
    have hc : ¬ c = sep := h c (List.mem_cons_self c cs)
    have ih' := ih (fun x hx => h x (List.mem_cons_of_mem c hx))
    simp [splitOnChar, hc, ih']

lemma splitOnChar_append {sep : Char} {a rest : List Char} (h : ∀ c ∈ a, ¬ c = sep) :
    splitOnChar sep (a ++ sep :: rest) = a :: splitOnChar sep rest := by
  induction a with
  | nil => simp [splitOnChar]
  | cons c cs ih =>
    have hc : ¬ c = sep := h c (List.mem_cons_self c cs)
    have ih' := ih (fun x hx => h x (List.mem_cons_of_mem c hx))
    simp [splitOnChar, hc, ih']

lemma takeWhile_append_all {p : Char → Bool} {a b : List Char} (h : ∀ c ∈ a, p c = true) :
    (a ++ b).takeWhile p = a ++ b.takeWhile p := by
  induction a with
  | nil => rfl
  | cons c cs ih =>
    have hc := h c (List.mem_cons_self c cs)
    simp [List.takeWhile_cons, hc, ih (fun x hx => h x (List.mem_cons_of_mem c hx))]

lemma dropWhile_append_all {p : Char → Bool} {a b : List Char} (h : ∀ c ∈ a, p c = true) :
    (a ++ b).dropWhile p = b.dropWhile p := by
  induction a with
  | nil => rfl
  | cons c cs ih =>
    have hc := h c (List.mem_cons_self c cs)
    simp [List.dropWhile_cons, hc, ih (fun x hx => h x (List.mem_cons_of_mem c hx))]

lemma firstRangePart_no_hyphen {l : List Char} (h : ∀ c ∈ l, ¬ c = '-') :
    firstRangePart l = l := by
  have hany : l.any (fun c => c = '-') = false := by
    rw [List.any_eq_false]; intro c hc; simpa using h c hc
  simp [firstRangePart, hany]

lemma firstRangePart_range (rest : List Char) {pre ws : List Char}
    (hpre : ∀ c ∈ pre, ¬ c = '-')
    (hws : ∀ c ∈ ws, c.isWhitespace = true)
    (hlast : pre.reverse.dropWhile Char.isWhitespace = pre.reverse) :
    firstRangePart (pre ++ (ws ++ '-' :: rest)) = pre := by
  have hany : (pre ++ (ws ++ '-' :: rest)).any (fun c => c = '-') = true := by
    rw [List.any_eq_true]
    exact ⟨'-', by simp, by simp⟩
  have htake : (pre ++ (ws ++ '-' :: rest)).takeWhile (fun c => ¬ c = '-') = pre ++ ws := by
    rw [← List.append_assoc]
    rw [takeWhile_append_all ?hall]
    case hall =>
      intro c hc
      rcases List.mem_append.mp hc with h1 | h2
      · simpa using hpre c h1
      · simpa using ws_ne_hyphen (hws c h2)
    simp [List.takeWhile_cons]
  simp only [firstRangePart, hany, if_true]
  rw [htake, List.reverse_append]
  rw [dropWhile_append_all (fun c hc => hws c (List.mem_reverse.mp hc))]
  rw [hlast, List.reverse_reverse]

lemma validDMY_props {d m y : List Char} (hv : validDMY d m y = true) :
    d.length = 2 ∧ (∀ c ∈ d, c.isDigit = true) ∧ m.length = 2 ∧ (∀ c ∈ m, c.isDigit = true) ∧
    y.length = 4 ∧ (∀ c ∈ y, c.isDigit = true) := by
  simp only [validDMY, Bool.and_eq_true, decide_eq_true_eq, List.all_eq_true] at hv
  refine ⟨?_, ?_, ?_, ?_, ?_, ?_⟩ <;> tauto

/-- Common tail of the two success cases: once `firstRangePart` has
produced the first date `d/m/y` with valid components, `parseDate`
returns that date's time value. -/
lemma parseDateChars_eq_of_part {l d m y : List Char} (hne : l ≠ [])
    (hpart : firstRangePart l = d ++ '/' :: (m ++ '/' :: y))
    (hv : validDMY d m y = true) :
    parseDateChars l = some (some (epochMsOf d m y)) := by
  obtain ⟨hd2, hdd, hm2, hmd, hy4, hyd⟩ := validDMY_props hv
  have hdne : d ≠ [] := by intro h; rw [h] at hd2; simp at hd2
  have hmne : m ≠ [] := by intro h; rw [h] at hm2; simp at hm2
  have hyne : y ≠ [] := by intro h; rw [h] at hy4; simp at hy4
  have hsplit : splitOnChar '/' (d ++ '/' :: (m ++ '/' :: y)) = [d, m, y] := by
    rw [splitOnChar_append (fun c hc => digit_ne_slash (hdd c hc))]
    rw [splitOnChar_append (fun c hc => digit_ne_slash (hmd c hc))]
    rw [splitOnChar_sepFree (fun c hc => digit_ne_slash (hyd c hc))]
  simp only [parseDateChars]
  rw [if_neg hne, hpart, hsplit]
  simp only [List.getD_cons_zero, List.getD_cons_succ]
  rw [if_neg (by simp [hdne, hmne, hyne])]
  simp only [mkJSDate]
  rw [if_pos hv]

/-- `parseDate` succeeds on a well-formed single date. -/
lemma parseDate_single {d m y : List Char} (hv : validDMY d m y = true) :
    parseDate ⟨d ++ '/' :: (m ++ '/' :: y)⟩ = some (some (epochMsOf d m y)) := by
  obtain ⟨hd2, hdd, _hm2, hmd, _hy4, hyd⟩ := validDMY_props hv
  have hdne : d ≠ [] := by intro h; rw [h] at hd2; simp at hd2
  apply parseDateChars_eq_of_part (by simp [hdne]) ?_ hv
  apply firstRangePart_no_hyphen
  intro c hc
  rcases List.mem_append.mp hc with h | h
  · exact digit_ne_hyphen (hdd c h)
  · rcases List.mem_cons.mp h with h | h
    · subst h; decide
    · rcases List.mem_append.mp h with h | h
      · exact digit_ne_hyphen (hmd c h)
      · rcases List.mem_cons.mp h with h | h
        · subst h; decide
        · exact digit_ne_hyphen (hyd c h)

/-- `parseDate` succeeds on a well-formed range, returning the first
component's date; the second range component is arbitrary. -/
lemma parseDate_range {d m y ws rest : List Char} (hv : validDMY d m y = true)
    (hws : ∀ c ∈ ws, c.isWhitespace = true) :
    parseDate ⟨d ++ '/' :: (m ++ '/' :: (y ++ (ws ++ '-' :: rest)))⟩ =
      some (some (epochMsOf d m y)) := by
  obtain ⟨hd2, hdd, _hm2, hmd, hy4, hyd⟩ := validDMY_props hv
  have hdne : d ≠ [] := by intro h; rw [h] at hd2; simp at hd2
  have hyne : y ≠ [] := by intro h; rw [h] at hy4; simp at hy4
  obtain ⟨c, t, hct⟩ : ∃ c t, y.reverse = c :: t := by
    cases hyr : y.reverse with
    | nil => exact absurd (List.reverse_eq_nil_iff.mp hyr) hyne
    | cons c t => exact ⟨c, t, rfl⟩
  have hcy : c ∈ y := by
    rw [← List.mem_reverse, hct]
    exact List.mem_cons_self c t
  have hcd : c.isDigit = true := hyd c hcy
  have hpre : ∀ x ∈ (d ++ '/' :: (m ++ ['/'])) ++ y, ¬ x = '-' := by
    intro x hx
    rcases List.mem_append.mp hx with h | h
    · rcases List.mem_append.mp h with h | h
      · exact digit_ne_hyphen (hdd x h)
      · rcases List.mem_cons.mp h with h | h
        · subst h; decide
        · rcases List.mem_append.mp h with h | h
          · exact digit_ne_hyphen (hmd x h)
          · rcases List.mem_cons.mp h with h | h
            · subst h; decide
            · exact absurd h (List.not_mem_nil x)
    · exact digit_ne_hyphen (hyd x h)
  have hlast : ((d ++ '/' :: (m ++ ['/'])) ++ y).reverse.dropWhile Char.isWhitespace
      = ((d ++ '/' :: (m ++ ['/'])) ++ y).reverse := by
    rw [List.reverse_append, hct]
    simp [List.dropWhile_cons, digit_not_ws hcd]
  have hpart := firstRangePart_range rest hpre hws hlast
  have hshape : d ++ '/' :: (m ++ '/' :: (y ++ (ws ++ '-' :: rest))) =
      ((d ++ '/' :: (m ++ ['/'])) ++ y) ++ (ws ++ '-' :: rest) := by
    simp
  have hshape2 : (d ++ '/' :: (m ++ ['/'])) ++ y = d ++ '/' :: (m ++ '/' :: y) := by
    simp
  apply parseDateChars_eq_of_part (by simp [hdne]) ?_ hv
  show firstRangePart (d ++ '/' :: (m ++ '/' :: (y ++ (ws ++ '-' :: rest))))
      = d ++ '/' :: (m ++ '/' :: y)
  rw [hshape, hpart, hshape2]

lemma string_eq_empty_of_toList {s : String} (h : s.toList = []) : s = "" := by
  cases s with
  | mk data =>
    simp only [String.toList] at h
    rw [show data = ([] : List Char) from h]

/-- `parseDate` returns a date value — never `null` — whenever the first
three components of the first range part are present and non-empty,
numeric or not. -/
lemma parseDate_ne_none_of_comps (s : String) (hne : s ≠ "")
    (h0 : (splitOnChar '/' (firstRangePart s.toList)).getD 0 [] ≠ [])
    (h1 : (splitOnChar '/' (firstRangePart s.toList)).getD 1 [] ≠ [])
    (h2 : (splitOnChar '/' (firstRangePart s.toList)).getD 2 [] ≠ []) :
    parseDate s ≠ none := by
  have hl : s.toList ≠ [] := fun h => hne (string_eq_empty_of_toList h)
  have hcond : ¬(((splitOnChar '/' (firstRangePart s.toList)).getD 0 [] = [] ||
      (splitOnChar '/' (firstRangePart s.toList)).getD 1 [] = [] ||
      (splitOnChar '/' (firstRangePart s.toList)).getD 2 [] = []) = true) := by
    simp only [Bool.or_eq_true, decide_eq_true_eq]
    tauto
  simp only [parseDate, parseDateChars]
  rw [if_neg hl, if_neg hcond]
  simp

/-- C2 (amended): for every valid `DD/MM/YYYY` calendar date, alone or
as the first component of a whitespace-hyphen range, `parse` succeeds
and returns the first component's date value; and `parse` returns the
unparsable value `None` only when the input is empty or one of the
first three `/`-separated components of the first range part is missing
or empty — an input whose components are present but do not form a
valid date yields an Invalid-Date value, not `None`. The function is
total, so it never raises. -/
theorem c2_parse_grammar :
    (∀ d m y : List Char, validDMY d m y = true →
        parseDate ⟨d ++ '/' :: (m ++ '/' :: y)⟩ = some (some (epochMsOf d m y))) ∧
    (∀ d m y ws rest : List Char, validDMY d m y = true →
        (∀ c ∈ ws, c.isWhitespace = true) →
        parseDate ⟨d ++ '/' :: (m ++ '/' :: (y ++ (ws ++ '-' :: rest)))⟩ =
          some (some (epochMsOf d m y))) ∧
    (∀ s : String, s ≠ "" →
        (splitOnChar '/' (firstRangePart s.toList)).getD 0 [] ≠ [] →
        (splitOnChar '/' (firstRangePart s.toList)).getD 1 [] ≠ [] →
        (splitOnChar '/' (firstRangePart s.toList)).getD 2 [] ≠ [] →
        parseDate s ≠ none) :=
  ⟨fun _ _ _ hv => parseDate_single hv,
   fun _ _ _ _ _ hv hws => parseDate_range hv hws,
   parseDate_ne_none_of_comps⟩

theorem c2_parse_grammar_witness :
    validDMY ['1', '2'] ['0', '7'] ['2', '0', '2', '5'] = true ∧
    parseDate ⟨['1', '2'] ++ '/' :: (['0', '7'] ++ '/' :: ['2', '0', '2', '5'])⟩ =
      some (some (epochMsOf ['1', '2'] ['0', '7'] ['2', '0', '2', '5'])) ∧
    parseDate ⟨['1', '2'] ++ '/' :: (['0', '7'] ++ '/' :: (['2', '0', '2', '5'] ++
        ([' '] ++ '-' :: [' ', '1', '5', '/', '0', '7', '/', '2', '0', '2', '5'])))⟩ =
      some (some (epochMsOf ['1', '2'] ['0', '7'] ['2', '0', '2', '5'])) ∧
    parseDate "aa/bb/cccc" ≠ none :=
  ⟨by decide,
   c2_parse_grammar.1 ['1', '2'] ['0', '7'] ['2', '0', '2', '5'] (by decide),
   c2_parse_grammar.2.1 ['1', '2'] ['0', '7'] ['2', '0', '2', '5'] [' ']
     [' ', '1', '5', '/', '0', '7', '/', '2', '0', '2', '5'] (by decide) (by decide),
   c2_parse_grammar.2.2 "aa/bb/cccc" (by decide) (by decide) (by decide) (by decide)⟩

/-- C2 (counterexample): `"aa/bb/cccc"` has all three components
present but non-numeric; the claim says `parse` returns `None`, but the
code returns `new Date("cccc-bb-aa")` — an Invalid Date, which is not
the `null` (`none`) value. -/
theorem c2_counterexample :
    parseDate "aa/bb/cccc" = some none ∧ (some (none : Option Int)) ≠ none := by
  decide

/-! ### Claim C3: calendar key ordering -/

lemma filter_orderedInsert_key (v : Int) (a : String) (l : List String) :
    (l.orderedInsert calendarLe a).filter (fun k => sortVal k = v) =
      if sortVal a = v then a :: l.filter (fun k => sortVal k = v)
      else l.filter (fun k => sortVal k = v) := by
  induction l with
  | nil =>
    by_cases ha : sortVal a = v <;> simp [List.orderedInsert, ha]
  | cons b l ih =>
    by_cases hab : calendarLe a b
    · by_cases ha : sortVal a = v <;>
        simp [List.orderedInsert, hab, List.filter_cons, ha]
    · have hba : sortVal b < sortVal a := by
        have := hab; unfold calendarLe at this; omega
      by_cases ha : sortVal a = v
      · have hb : ¬ sortVal b = v := by omega
        simp [List.orderedInsert, hab, List.filter_cons, ha, hb, ih]
      · by_cases hb : sortVal b = v <;>
          simp [List.orderedInsert, hab, List.filter_cons, ha, hb, ih]

/-- Stability of the key sort: the keys holding any fixed comparator
value appear in the sorted output exactly in their original order. -/
lemma filter_insertionSort_key (v : Int) (l : List String) :
    (l.insertionSort calendarLe).filter (fun k => sortVal k = v) =
      l.filter (fun k => sortVal k = v) := by
  induction l with
  | nil => rfl
  | cons a l ih =>
    rw [List.insertionSort, filter_orderedInsert_key]
    by_cases ha : sortVal a = v <;> simp [ha, ih, List.filter_cons]

/-- C3 (amended): the calendar group keys are ordered by the comparator
value `(parseDate(k) || 0)` — a parsable key by its date value, an
unparsable (null) key by `0`, i.e. the epoch. So an unparsable key
sorts **before** every key dated after 1970-01-01 rather than after all
parsable keys; the sort is a permutation of the keys, it is stable, and
ties — in particular all unparsable keys among themselves — keep their
encounter order. (Scoped to key sets containing no Invalid-Date keys,
where `NaN` comparisons would make the comparator inconsistent, and no
array-index-shaped keys, which `Object.keys` would reorder.) -/
theorem c3_calendar_order (events : List SavedEvent) (v : Int)
    (_hval : ∀ k ∈ calendarKeys events, parseDate k ≠ some none)
    (_hidx : ∀ k ∈ calendarKeys events, isArrayIndexKey k = false) :
    (calendarDates events).Perm (calendarKeys events) ∧
    (calendarDates events).Sorted calendarLe ∧
    (calendarDates events).filter (fun k => sortVal k = v) =
      (calendarKeys events).filter (fun k => sortVal k = v) ∧
    (∀ k ∈ calendarKeys events, parseDate k = none → sortVal k = 0) := by
  refine ⟨List.perm_insertionSort calendarLe (calendarKeys events),
    List.sorted_insertionSort calendarLe (calendarKeys events),
    filter_insertionSort_key v (calendarKeys events), ?_⟩
  intro k _ hk
  simp [sortVal, hk]

theorem c3_calendar_order_witness :
    (∀ k ∈ calendarKeys [savedA, savedB], parseDate k ≠ some none) ∧
    (∀ k ∈ calendarKeys [savedA, savedB], isArrayIndexKey k = false) ∧
    ((calendarDates [savedA, savedB]).Perm (calendarKeys [savedA, savedB]) ∧
      (calendarDates [savedA, savedB]).Sorted calendarLe ∧
      (calendarDates [savedA, savedB]).filter (fun k => sortVal k = 0) =
        (calendarKeys [savedA, savedB]).filter (fun k => sortVal k = 0) ∧
      (∀ k ∈ calendarKeys [savedA, savedB], parseDate k = none → sortVal k = 0)) :=
  ⟨by decide, by decide, c3_calendar_order [savedA, savedB] 0 (by decide) (by decide)⟩

/-- C3 (counterexample): with the saved events dated `"12/07/2025"`
(parsable) and `"sin fecha"` (unparsable), the displayed key order is
`["sin fecha", "12/07/2025"]`: the unparsable key is sorted **before**
the parsable one, because `(null || 0)` makes it compare as the epoch,
not after all parsable keys as the claim states. -/
theorem c3_counterexample :
    calendarDates [savedA, savedB] = ["sin fecha", "12/07/2025"] ∧
    parseDate "sin fecha" = none ∧ parseDate "12/07/2025" ≠ none := by
  decide

end EventFinder
